import Mathlib

/-!
Verification of the update-checker script (scripts/check-updates.py).

The Python source is shallowly embedded: strings are modelled as `List Char`
(wrapped back into `String` at the interfaces), every network access is a
function parameter holding the response the network would have produced, and
Python exceptions are modelled with `Except String`.  Regular-expression
patterns from the source are translated token by token into a small matcher
(`matchSeq`), and the external `packaging.version` parser is modelled on the
numeric dotted release segment, the only form the script's patterns admit.
-/

set_option maxRecDepth 4000

/-! ## Python string primitives -/

/-- Membership test of Python `needle in haystack` on strings (substring):
the needle is a prefix at some position of the haystack. -/
def pyIn : List Char → List Char → Bool
  | needle, [] => needle.isEmpty
  | needle, c :: rest => needle.isPrefixOf (c :: rest) || pyIn needle rest

/-- Python `str.endswith`. -/
def pyEndsWith (suffixL s : List Char) : Bool := suffixL.isSuffixOf s

/-- Python `str.split(sep)` for a one-character separator. -/
def splitChar (sep : Char) : List Char → List (List Char)
  | [] => [[]]
  | c :: r =>
    if c = sep then [] :: splitChar sep r
    else
      match splitChar sep r with
      | h :: t => (c :: h) :: t
      | [] => [[c]]

/-- One step of Python `str.replace(old, new)`: `skip` counts characters of a
matched occurrence still to be consumed without being re-examined, so matches
are non-overlapping and found left to right, as in Python. -/
def replGo (pat rep : List Char) : Nat → List Char → List Char
  | _, [] => []
  | Nat.succ skip, _ :: rest => replGo pat rep skip rest
  | 0, c :: rest =>
    if pat.isPrefixOf (c :: rest) && !pat.isEmpty then
      rep ++ replGo pat rep (pat.length - 1) rest
    else
      c :: replGo pat rep 0 rest

/-- Python `str.replace(old, new)` (all non-overlapping occurrences, left to
right; `old` is never empty where the script uses it). -/
def replaceL (pat rep l : List Char) : List Char := replGo pat rep 0 l

/-- Python code-point comparison `s < t` (lexicographic on code points). -/
def strLtL : List Char → List Char → Bool
  | [], [] => false
  | [], _ :: _ => true
  | _ :: _, [] => false
  | a :: as, b :: bs =>
    if a.toNat < b.toNat then true
    else if b.toNat < a.toNat then false
    else strLtL as bs

/-- Python `s <= t`, i.e. not `t < s` (code-point order is total). -/
def strLeL (a b : List Char) : Bool := !strLtL b a

/-! ## clean_version (source lines 111-116)

`re.sub(r'^(release-|v)', '', ver)` removes one leading `release-` (tried
first) or `v`; the anchored pattern cannot match again after the first
substitution.  `re.sub(r'(-alpine|-slim)$', '', ver)` removes one trailing
`-alpine` or `-slim`; the two alternatives can never both be suffixes of the
same string. -/

/-- Leading marker removal of `clean_version`. -/
def stripLead (l : List Char) : List Char :=
  if "release-".data.isPrefixOf l then l.drop 8
  else if "v".data.isPrefixOf l then l.drop 1
  else l

/-- Trailing marker removal of `clean_version`. -/
def stripTrail (l : List Char) : List Char :=
  if "-alpine".data.isSuffixOf l then l.take (l.length - 7)
  else if "-slim".data.isSuffixOf l then l.take (l.length - 5)
  else l

/-- Body of `clean_version` on character lists. -/
def cleanL (l : List Char) : List Char := stripTrail (stripLead l)

/-- `clean_version` from the source: strip a leading `release-` or `v` and a
trailing `-alpine` or `-slim`. -/
def clean_version (s : String) : String := ⟨cleanL s.data⟩

/-- The cleaned string still starts with a strippable marker. -/
def startsMarker (l : List Char) : Bool :=
  "release-".data.isPrefixOf l || "v".data.isPrefixOf l

/-- The cleaned string still ends with a strippable marker. -/
def endsMarker (l : List Char) : Bool :=
  "-alpine".data.isSuffixOf l || "-slim".data.isSuffixOf l

/-- C6 (amended): version cleaning is idempotent on every string whose cleaned
form does not itself start with `release-` or `v` nor end with `-alpine` or
`-slim` (nested markers such as `vv1.0` are cleaned one layer per pass, so the
unrestricted claim fails). -/
theorem c6_thm (s : String)
    (h1 : startsMarker (cleanL s.data) = false)
    (h2 : endsMarker (cleanL s.data) = false) :
    clean_version (clean_version s) = clean_version s := by
  have hlead : stripLead (cleanL s.data) = cleanL s.data := by
    unfold startsMarker at h1
    unfold stripLead
    rcases Bool.or_eq_false_iff.mp h1 with ⟨ha, hb⟩
    simp [ha, hb]
  have htrail : stripTrail (cleanL s.data) = cleanL s.data := by
    unfold endsMarker at h2
    unfold stripTrail
    rcases Bool.or_eq_false_iff.mp h2 with ⟨ha, hb⟩
    simp [ha, hb]
  have key : cleanL (cleanL s.data) = cleanL s.data := by
    calc cleanL (cleanL s.data)
        = stripTrail (stripLead (cleanL s.data)) := rfl
      _ = stripTrail (cleanL s.data) := by rw [hlead]
      _ = cleanL s.data := htrail
  show (⟨cleanL (cleanL s.data)⟩ : String) = ⟨cleanL s.data⟩
  exact congrArg String.mk key

/-- C6 counterexample: cleaning is not idempotent on `vv1.0` — the first pass
strips one `v` yielding `v1.0`, the second strips another. -/
theorem c6_cex :
    clean_version (clean_version "vv1.0") ≠ clean_version "vv1.0" := by decide

/-- C6 witness: the amended idempotence theorem applied at `v9.5.1`. -/
theorem c6_wit :
    startsMarker (cleanL "v9.5.1".data) = false ∧
      endsMarker (cleanL "v9.5.1".data) = false ∧
      clean_version (clean_version "v9.5.1") = clean_version "v9.5.1" :=
  ⟨by decide, by decide, c6_thm "v9.5.1" (by decide) (by decide)⟩

/-! ## Output sanitizer (source lines 178-197)

`sanitize_for_github_env` removes the characters of the class `[<>"$\\]`
together with the backtick (code point 96), replaces `[\r\n\t]` by spaces,
collapses whitespace runs (Python `\s`, the Unicode whitespace set) to one
space, keeps only printable ASCII, truncates above 200 characters at the last
space and appends an ellipsis, and finally strips surrounding whitespace. -/

/-- Characters removed by `re.sub(r'[<>"`$\\]', '', ...)`, by code point:
60 `<`, 62 `>`, 34 double quote, 96 backtick, 36 `$`, 92 backslash. -/
def isDangerousC (c : Char) : Bool :=
  c.toNat == 60 || c.toNat == 62 || c.toNat == 34 || c.toNat == 96 ||
  c.toNat == 36 || c.toNat == 92

/-- Characters replaced by a space by `re.sub(r'[\r\n\t]', ' ', ...)`. -/
def isCtlWs (c : Char) : Bool := c.toNat == 13 || c.toNat == 10 || c.toNat == 9

/-- Python `\s` on `str`: ASCII whitespace, the separator controls 28-31,
and the Unicode whitespace code points. -/
def isPyWs (c : Char) : Bool :=
  c.toNat == 32 || (9 ≤ c.toNat && c.toNat ≤ 13) || (28 ≤ c.toNat && c.toNat ≤ 31) ||
  c.toNat == 133 || c.toNat == 160 || c.toNat == 5760 ||
  (8192 ≤ c.toNat && c.toNat ≤ 8202) || c.toNat == 8232 || c.toNat == 8233 ||
  c.toNat == 8239 || c.toNat == 8287 || c.toNat == 12288

/-- Characters kept by `re.sub(r'[^\x20-\x7E]', '', ...)`. -/
def isPrintableC (c : Char) : Bool := 32 ≤ c.toNat && c.toNat ≤ 126

/-- `re.sub(r'\s+', ' ', ...)`: each maximal whitespace run becomes one
space; the flag records whether the previous character was whitespace. -/
def collapseGo : Bool → List Char → List Char
  | _, [] => []
  | prevWs, c :: r =>
    if isPyWs c then
      if prevWs then collapseGo true r else ' ' :: collapseGo true r
    else c :: collapseGo false r

/-- Python `content.rsplit(' ', 1)[0]`: everything before the last space,
or the whole string when it has no space. -/
def dropLastWord (l : List Char) : List Char :=
  if l.contains ' ' then ((l.reverse.dropWhile (fun c => c != ' ')).drop 1).reverse
  else l

/-- The truncation step: above 200 characters cut at the last space of the
first 200 and append the three-character ellipsis marker. -/
def truncL (l : List Char) : List Char :=
  if 200 < l.length then dropLastWord (l.take 200) ++ ['.', '.', '.'] else l

/-- Python `str.strip()`, leading part. -/
def lstripL (l : List Char) : List Char := l.dropWhile isPyWs

/-- Python `str.strip()`, trailing part. -/
def rstripL (l : List Char) : List Char := (l.reverse.dropWhile isPyWs).reverse

/-- Python `str.strip()`. -/
def stripL (l : List Char) : List Char := rstripL (lstripL l)

/-- `sanitize_for_github_env` on character lists, stage for stage in source
order: empty guard, dangerous-character removal, `[\r\n\t]` to space,
whitespace collapse, printable filter, truncation, strip. -/
def sanitizeL (l : List Char) : List Char :=
  if l.isEmpty then []
  else
    stripL (truncL
      ((collapseGo false
        ((l.filter (fun c => !isDangerousC c)).map
          (fun c => if isCtlWs c then ' ' else c))).filter isPrintableC))

/-- `sanitize_for_github_env` from the source. -/
def sanitize_for_github_env (s : String) : String := ⟨sanitizeL s.data⟩

/-- No two adjacent spaces occur in the list. -/
def noTwoSpaces : List Char → Bool
  | a :: b :: r => !(a == ' ' && b == ' ') && noTwoSpaces (b :: r)
  | _ => true

/-! ### Character-set and length facts about the sanitizer -/

/-- Membership survives `dropWhile`. -/
theorem mem_of_mem_dropWhile {p : Char → Bool} :
    ∀ {l : List Char} {c : Char}, c ∈ l.dropWhile p → c ∈ l := by
  intro l
  induction l with
  | nil => intro c h; simp at h
  | cons a r ih =>
    intro c h
    by_cases hp : p a
    · rw [List.dropWhile_cons, if_pos hp] at h
      exact List.mem_cons_of_mem _ (ih h)
    · rw [List.dropWhile_cons, if_neg hp] at h
      exact h

/-- Membership survives `rstripL`. -/
theorem mem_of_mem_rstripL {l : List Char} {c : Char} (h : c ∈ rstripL l) : c ∈ l := by
  unfold rstripL at h
  exact List.mem_reverse.mp (mem_of_mem_dropWhile (List.mem_reverse.mp h))

/-- Membership survives `stripL`. -/
theorem mem_of_mem_stripL {l : List Char} {c : Char} (h : c ∈ stripL l) : c ∈ l :=
  mem_of_mem_dropWhile (mem_of_mem_rstripL h)

/-- Membership survives `dropLastWord`. -/
theorem mem_of_mem_dropLastWord {l : List Char} {c : Char}
    (h : c ∈ dropLastWord l) : c ∈ l := by
  unfold dropLastWord at h
  split at h
  · exact List.mem_reverse.mp
      (mem_of_mem_dropWhile (List.drop_subset 1 _ (List.mem_reverse.mp h)))
  · exact h

/-- A character of the truncation's output is an ellipsis dot or input. -/
theorem mem_of_mem_truncL {l : List Char} {c : Char}
    (h : c ∈ truncL l) : c = '.' ∨ c ∈ l := by
  unfold truncL at h
  split at h
  · rcases List.mem_append.mp h with h1 | h1
    · exact Or.inr (List.take_subset 200 l (mem_of_mem_dropLastWord h1))
    · left
      simpa using h1
  · exact Or.inr h

/-- A character of the collapse's output is a space or input. -/
theorem mem_of_mem_collapseGo :
    ∀ {l : List Char} {b : Bool} {c : Char}, c ∈ collapseGo b l → c = ' ' ∨ c ∈ l := by
  intro l
  induction l with
  | nil => intro b c h; simp [collapseGo] at h
  | cons a r ih =>
    intro b c h
    by_cases hws : isPyWs a
    · rcases b with _ | _
      · rw [show collapseGo false (a :: r) = ' ' :: collapseGo true r from by
          simp [collapseGo, hws]] at h
        rcases List.mem_cons.mp h with h1 | h1
        · exact Or.inl h1
        · rcases ih h1 with h2 | h2
          · exact Or.inl h2
          · exact Or.inr (List.mem_cons_of_mem _ h2)
      · rw [show collapseGo true (a :: r) = collapseGo true r from by
          simp [collapseGo, hws]] at h
        rcases ih h with h2 | h2
        · exact Or.inl h2
        · exact Or.inr (List.mem_cons_of_mem _ h2)
    · rw [show collapseGo b (a :: r) = a :: collapseGo false r from by
        simp [collapseGo, hws]] at h
      rcases List.mem_cons.mp h with h1 | h1
      · exact Or.inr (h1 ▸ List.mem_cons_self a r)
      · rcases ih h1 with h2 | h2
        · exact Or.inl h2
        · exact Or.inr (List.mem_cons_of_mem _ h2)

/-- Every character of sanitized output is printable ASCII and not one of
the dangerous characters. -/
theorem sanitizeL_chars {l : List Char} {c : Char} (h : c ∈ sanitizeL l) :
    isDangerousC c = false ∧ isPrintableC c = true := by
  unfold sanitizeL at h
  split at h
  · simp at h
  · have h1 := mem_of_mem_stripL h
    rcases mem_of_mem_truncL h1 with hdot | h2
    · subst hdot; exact ⟨by decide, by decide⟩
    · have h3 := List.mem_filter.mp h2
      refine ⟨?_, h3.2⟩
      rcases mem_of_mem_collapseGo h3.1 with hsp | h4
      · subst hsp; decide
      · rcases List.mem_map.mp h4 with ⟨a, ha, hfa⟩
        have ha2 := (List.mem_filter.mp ha).2
        by_cases hct : isCtlWs a
        · rw [if_pos hct] at hfa
          rw [← hfa]; decide
        · rw [if_neg hct] at hfa
          rw [← hfa]
          simpa using ha2

/-- `dropWhile` never lengthens a list. -/
theorem length_dropWhile_le' (p : Char → Bool) (l : List Char) :
    (l.dropWhile p).length ≤ l.length := by
  induction l with
  | nil => simp
  | cons a r ih =>
    by_cases hp : p a
    · rw [List.dropWhile_cons, if_pos hp]
      exact Nat.le_trans ih (Nat.le_succ _)
    · rw [List.dropWhile_cons, if_neg hp]

/-- `stripL` never lengthens a list. -/
theorem length_stripL_le (l : List Char) : (stripL l).length ≤ l.length := by
  unfold stripL rstripL lstripL
  calc ((l.dropWhile isPyWs).reverse.dropWhile isPyWs).reverse.length
      = ((l.dropWhile isPyWs).reverse.dropWhile isPyWs).length := List.length_reverse _
    _ ≤ (l.dropWhile isPyWs).reverse.length := length_dropWhile_le' _ _
    _ = (l.dropWhile isPyWs).length := List.length_reverse _
    _ ≤ l.length := length_dropWhile_le' _ _

/-- `dropLastWord` never lengthens a list. -/
theorem length_dropLastWord_le (l : List Char) : (dropLastWord l).length ≤ l.length := by
  unfold dropLastWord
  split
  · calc ((l.reverse.dropWhile (fun c => c != ' ')).drop 1).reverse.length
        = ((l.reverse.dropWhile (fun c => c != ' ')).drop 1).length := List.length_reverse _
      _ ≤ (l.reverse.dropWhile (fun c => c != ' ')).length := by
          rw [List.length_drop]; omega
      _ ≤ l.reverse.length := length_dropWhile_le' _ _
      _ = l.length := List.length_reverse _
  · exact Nat.le_refl _

/-- Truncation caps the length at 203 = 200 + the ellipsis marker. -/
theorem length_truncL_le (l : List Char) : (truncL l).length ≤ 203 := by
  unfold truncL
  split
  · rw [List.length_append]
    have h1 : (dropLastWord (l.take 200)).length ≤ 200 :=
      Nat.le_trans (length_dropLastWord_le _) (by rw [List.length_take]; omega)
    simp only [List.length_cons, List.length_nil]
    omega
  · omega

/-- C7: for every input, sanitized output contains none of the dangerous
characters (angle brackets, double quote, backtick, dollar, backslash), no
newline and no tab, and is at most 203 characters long. -/
theorem c7_thm (s : String) :
    (sanitize_for_github_env s).data.all
        (fun c => !isDangerousC c && c != '\n' && c != '\t') = true ∧
      (sanitize_for_github_env s).length ≤ 203 := by
  constructor
  · refine List.all_eq_true.mpr ?_
    intro c hc
    have hprops := sanitizeL_chars (l := s.data) (c := c) hc
    have hn : c ≠ '\n' := by
      intro he
      rw [he] at hprops
      exact absurd hprops.2 (by decide)
    have ht : c ≠ '\t' := by
      intro he
      rw [he] at hprops
      exact absurd hprops.2 (by decide)
    simp [hprops.1, hn, ht]
  · show (sanitizeL s.data).length ≤ 203
    unfold sanitizeL
    split
    · simp
    · exact Nat.le_trans (length_stripL_le _) (length_truncL_le _)

/-! ### Idempotence of the sanitizer on its well-behaved outputs -/

/-- A filter that accepts every element is the identity. -/
theorem filter_id_of {p : Char → Bool} {l : List Char}
    (h : ∀ c ∈ l, p c = true) : l.filter p = l := by
  induction l with
  | nil => rfl
  | cons a r ih =>
    rw [List.filter_cons, if_pos (h a (List.mem_cons_self a r))]
    rw [ih (fun c hc => h c (List.mem_cons_of_mem _ hc))]

/-- A map that fixes every element is the identity. -/
theorem map_id_of {f : Char → Char} {l : List Char}
    (h : ∀ c ∈ l, f c = c) : l.map f = l := by
  induction l with
  | nil => rfl
  | cons a r ih =>
    rw [List.map_cons, h a (List.mem_cons_self a r),
      ih (fun c hc => h c (List.mem_cons_of_mem _ hc))]

/-- Printable characters are not CR, LF or TAB. -/
theorem printable_not_ctl {c : Char} (h : isPrintableC c = true) : isCtlWs c = false := by
  have h' : 32 ≤ c.toNat ∧ c.toNat ≤ 126 := by simpa [isPrintableC] using h
  simp only [isCtlWs, Bool.or_eq_false_iff, beq_eq_false_iff_ne, ne_eq]
  omega

/-- A printable whitespace character is the space. -/
theorem printable_ws_space {c : Char} (hp : isPrintableC c = true)
    (hw : isPyWs c = true) : c = ' ' := by
  have h32 : c.toNat = 32 := by
    have hp' : 32 ≤ c.toNat ∧ c.toNat ≤ 126 := by simpa [isPrintableC] using hp
    have hw' : c.toNat = 32 ∨ (9 ≤ c.toNat ∧ c.toNat ≤ 13) ∨
        (28 ≤ c.toNat ∧ c.toNat ≤ 31) ∨ c.toNat = 133 ∨ c.toNat = 160 ∨
        c.toNat = 5760 ∨ (8192 ≤ c.toNat ∧ c.toNat ≤ 8202) ∨ c.toNat = 8232 ∨
        c.toNat = 8233 ∨ c.toNat = 8239 ∨ c.toNat = 8287 ∨ c.toNat = 12288 := by
      simpa [isPyWs, Bool.or_eq_true_iff, Bool.and_eq_true_iff, or_assoc] using hw
    omega
  have hofn := Char.ofNat_toNat c
  rw [h32] at hofn
  rw [← hofn]

/-- The tail of a list without adjacent spaces has none either. -/
theorem noTwoSpaces_tail {a : Char} {r : List Char}
    (h : noTwoSpaces (a :: r) = true) : noTwoSpaces r = true := by
  cases r with
  | nil => rfl
  | cons b r2 => exact (Bool.and_eq_true_iff.mp h).2

/-- Collapsing whitespace is the identity on lists whose only whitespace is
single spaces; with the previous-was-whitespace flag set it is the identity
when additionally the head is not a space. -/
theorem collapseGo_id :
    ∀ l : List Char, (∀ c ∈ l, isPyWs c = true → c = ' ') → noTwoSpaces l = true →
      collapseGo false l = l ∧
        ((∀ c, l.head? = some c → c ≠ ' ') → collapseGo true l = l) := by
  intro l
  induction l with
  | nil => intro _ _; exact ⟨rfl, fun _ => rfl⟩
  | cons a r ih =>
    intro hws hnts
    have hwr : ∀ c ∈ r, isPyWs c = true → c = ' ' :=
      fun c hc => hws c (List.mem_cons_of_mem _ hc)
    obtain ⟨ih1, ih2⟩ := ih hwr (noTwoSpaces_tail hnts)
    by_cases ha : isPyWs a = true
    · have haSp : a = ' ' := hws a (List.mem_cons_self a r) ha
      subst haSp
      have hhead : ∀ c, r.head? = some c → c ≠ ' ' := by
        intro c hc he
        subst he
        cases r with
        | nil => simp at hc
        | cons b r2 =>
          have hb : b = ' ' := by simpa using hc
          subst hb
          simp [noTwoSpaces] at hnts
      constructor
      · show collapseGo false (' ' :: r) = ' ' :: r
        have hstep : collapseGo false (' ' :: r) = ' ' :: collapseGo true r := by
          simp [collapseGo, ha]
        rw [hstep, ih2 hhead]
      · intro hno
        exact absurd rfl (hno ' ' rfl)
    · have ha' : isPyWs a = false := Bool.not_eq_true _ ▸ eq_false_of_ne_true ha
      constructor
      · show collapseGo false (a :: r) = a :: r
        simp [collapseGo, ha', ih1]
      · intro _
        show collapseGo true (a :: r) = a :: r
        simp [collapseGo, ha', ih1]

/-- The head surviving `dropWhile` fails the predicate. -/
theorem dropWhile_head_not {p : Char → Bool} :
    ∀ {l : List Char} {c : Char}, (l.dropWhile p).head? = some c → p c = false := by
  intro l
  induction l with
  | nil => intro c h; simp at h
  | cons a r ih =>
    intro c h
    by_cases hp : p a
    · rw [List.dropWhile_cons, if_pos hp] at h
      exact ih h
    · rw [List.dropWhile_cons, if_neg hp] at h
      have : a = c := by simpa using h
      subst this
      exact Bool.not_eq_true _ ▸ eq_false_of_ne_true hp

/-- `dropWhile` is the identity when the head already fails the predicate. -/
theorem dropWhile_id_of_head {p : Char → Bool} {l : List Char}
    (h : ∀ c, l.head? = some c → p c = false) : l.dropWhile p = l := by
  cases l with
  | nil => rfl
  | cons a r =>
    rw [List.dropWhile_cons, if_neg]
    simp [h a rfl]

/-- `rstripL` output extends to the input by the stripped whitespace. -/
theorem rstripL_prefix (l : List Char) :
    rstripL l ++ (l.reverse.takeWhile isPyWs).reverse = l := by
  unfold rstripL
  rw [← List.reverse_append, List.takeWhile_append_dropWhile, List.reverse_reverse]

/-- The head of a stripped list is not whitespace. -/
theorem stripL_head {l : List Char} {c : Char}
    (h : (stripL l).head? = some c) : isPyWs c = false := by
  have hpre := rstripL_prefix (lstripL l)
  cases hrs : stripL l with
  | nil => rw [hrs] at h; simp at h
  | cons a r =>
    rw [hrs] at h
    have hac : a = c := by simpa using h
    subst hac
    unfold stripL at hrs
    rw [hrs] at hpre
    have hhead : (lstripL l).head? = some a := by
      rw [← hpre]; rfl
    exact dropWhile_head_not (p := isPyWs) (l := l) hhead

/-- The last character of a stripped list (head of its reverse) is not
whitespace. -/
theorem stripL_last {l : List Char} {c : Char}
    (h : (stripL l).reverse.head? = some c) : isPyWs c = false := by
  unfold stripL rstripL at h
  rw [List.reverse_reverse] at h
  exact dropWhile_head_not h

/-- Stripping is idempotent. -/
theorem stripL_idem (l : List Char) : stripL (stripL l) = stripL l := by
  have h1 : lstripL (stripL l) = stripL l :=
    dropWhile_id_of_head (fun c hc => stripL_head hc)
  have h2 : rstripL (stripL l) = stripL l := by
    unfold rstripL
    rw [dropWhile_id_of_head (fun c hc => stripL_last hc), List.reverse_reverse]
  show rstripL (lstripL (stripL l)) = stripL l
  rw [h1, h2]

/-- Sanitizing is the identity on an already-sanitized value of length at
most 200 without adjacent spaces. -/
theorem sanitizeL_idem (l : List Char) (hlen : (sanitizeL l).length ≤ 200)
    (hsp : noTwoSpaces (sanitizeL l) = true) :
    sanitizeL (sanitizeL l) = sanitizeL l := by
  cases hE : (sanitizeL l).isEmpty with
  | true =>
    have hnil : sanitizeL l = [] := by
      cases h : sanitizeL l with
      | nil => rfl
      | cons a r => rw [h] at hE; simp at hE
    rw [hnil]
    rfl
  | false =>
    have hchars : ∀ c ∈ sanitizeL l, isDangerousC c = false ∧ isPrintableC c = true :=
      fun c hc => sanitizeL_chars hc
    have step1 : (sanitizeL l).filter (fun c => !isDangerousC c) = sanitizeL l :=
      filter_id_of (fun c hc => by simp [(hchars c hc).1])
    have step2 : (sanitizeL l).map (fun c => if isCtlWs c then ' ' else c) = sanitizeL l :=
      map_id_of (fun c hc => by rw [if_neg]; simp [printable_not_ctl (hchars c hc).2])
    have step3 : collapseGo false (sanitizeL l) = sanitizeL l :=
      (collapseGo_id (sanitizeL l)
        (fun c hc hw => printable_ws_space (hchars c hc).2 hw) hsp).1
    have step4 : (sanitizeL l).filter isPrintableC = sanitizeL l :=
      filter_id_of (fun c hc => (hchars c hc).2)
    have step5 : truncL (sanitizeL l) = sanitizeL l := by
      unfold truncL
      rw [if_neg]
      omega
    have step6 : stripL (sanitizeL l) = sanitizeL l := by
      cases hLE : l.isEmpty with
      | true =>
        have : sanitizeL l = [] := by unfold sanitizeL; rw [if_pos hLE]
        rw [this]
        rfl
      | false =>
        have hform : sanitizeL l =
            stripL (truncL ((collapseGo false
              ((l.filter (fun c => !isDangerousC c)).map
                (fun c => if isCtlWs c then ' ' else c))).filter isPrintableC)) := by
          unfold sanitizeL
          rw [if_neg]
          simp [hLE]
        rw [hform, stripL_idem]
    conv_lhs => rw [sanitizeL]
    rw [if_neg (by simp [hE]), step1, step2, step3, step4, step5, step6]

/-- C5 (amended): the sanitizer is idempotent on every input whose sanitized
output is at most 200 characters long and contains no two adjacent spaces.
(A non-printable character between two spaces survives the whitespace
collapse and leaves a double space that only the second pass merges, and a
truncated output above 200 characters is re-truncated, so the unrestricted
claim fails.) -/
theorem c5_thm (s : String)
    (hlen : (sanitize_for_github_env s).length ≤ 200)
    (hsp : noTwoSpaces (sanitize_for_github_env s).data = true) :
    sanitize_for_github_env (sanitize_for_github_env s) = sanitize_for_github_env s := by
  show (⟨sanitizeL (sanitizeL s.data)⟩ : String) = ⟨sanitizeL s.data⟩
  exact congrArg String.mk (sanitizeL_idem s.data hlen hsp)

/-- C5 counterexample: `"a\x01 b"` with a control character between two
spaces sanitizes to `"a  b"` (double space), which a second pass collapses
to `"a b"` — so sanitize(sanitize(s)) differs from sanitize(s). -/
theorem c5_cex :
    sanitize_for_github_env (sanitize_for_github_env "a \x01 b") ≠
      sanitize_for_github_env "a \x01 b" := by decide

/-- C5 witness: the amended idempotence theorem applied at `"Hello world"`. -/
theorem c5_wit :
    (sanitize_for_github_env "Hello world").length ≤ 200 ∧
      noTwoSpaces (sanitize_for_github_env "Hello world").data = true ∧
      sanitize_for_github_env (sanitize_for_github_env "Hello world") =
        sanitize_for_github_env "Hello world" :=
  ⟨by decide, by decide, c5_thm "Hello world" (by decide) (by decide)⟩

/-! ## Version patterns and the tag matchers (source lines 70-99, 230-333)

Each regex of `VERSION_PATTERNS` is a concatenation of literals, `\d+` and
`\d{4}`, with optional groups.  An optional group `(...)?` is expanded into
the list of its alternatives, so a pattern is a set of plain token
sequences; a digit run is matched greedily, which agrees with the regex
because no token sequence ever has anything that can start with a digit
right after a digit run.  `\d` is modelled on the ASCII digits. -/

/-- A token of an expanded tag pattern. -/
inductive STok where
  | lit (s : List Char)
  | digitsPlus
  | digits4
deriving DecidableEq, Repr

/-- A pattern: the alternatives obtained by expanding the optional groups. -/
def RegEx : Type := List (List STok)

instance : DecidableEq RegEx := by
  unfold RegEx
  infer_instance

/-- Anchored match (`re.match` with a pattern ending in a dollar sign) of one
token sequence against the whole character list. -/
def matchSeq : List STok → List Char → Bool
  | [], l => l.isEmpty
  | STok.lit s :: r, l => s.isPrefixOf l && matchSeq r (l.drop s.length)
  | STok.digitsPlus :: r, l =>
    !(l.takeWhile Char.isDigit).isEmpty && matchSeq r (l.dropWhile Char.isDigit)
  | STok.digits4 :: r, l =>
    decide ((l.take 4).length = 4) && (l.take 4).all Char.isDigit && matchSeq r (l.drop 4)

/-- Whole-string regex match: some expanded alternative matches. -/
def reMatch (re : RegEx) (t : String) : Bool := re.any (fun alt => matchSeq alt t.data)

/-- `^\d+\.\d+\.\d+$`. -/
def reg3 : RegEx :=
  [[.digitsPlus, .lit ['.'], .digitsPlus, .lit ['.'], .digitsPlus]]

/-- `^v\d+\.\d+\.\d+$`. -/
def regV3 : RegEx :=
  [[.lit ['v'], .digitsPlus, .lit ['.'], .digitsPlus, .lit ['.'], .digitsPlus]]

/-- `^release-\d+\.\d+\.\d+$`. -/
def regRelease3 : RegEx :=
  [[.lit "release-".data, .digitsPlus, .lit ['.'], .digitsPlus, .lit ['.'], .digitsPlus]]

/-- `^\d{4}\.\d+\.\d+$`. -/
def regYear3 : RegEx :=
  [[.digits4, .lit ['.'], .digitsPlus, .lit ['.'], .digitsPlus]]

/-- `^\d{4}\.\d+$`. -/
def regYear2 : RegEx := [[.digits4, .lit ['.'], .digitsPlus]]

/-- `^\d+\.\d+(\.\d+)?(-alpine)?$`, optional groups expanded. -/
def regRedis : RegEx :=
  [[.digitsPlus, .lit ['.'], .digitsPlus],
   [.digitsPlus, .lit ['.'], .digitsPlus, .lit "-alpine".data],
   [.digitsPlus, .lit ['.'], .digitsPlus, .lit ['.'], .digitsPlus],
   [.digitsPlus, .lit ['.'], .digitsPlus, .lit ['.'], .digitsPlus, .lit "-alpine".data]]

/-- `^\d+(\.\d+)?$`, optional group expanded. -/
def regPostgres : RegEx :=
  [[.digitsPlus], [.digitsPlus, .lit ['.'], .digitsPlus]]

/-- `^\d+$`. -/
def regInt : RegEx := [[.digitsPlus]]

/-- `^\d+\.\d+(\.\d+)?$`, the generic bare fallback, expanded. -/
def bareRE : RegEx :=
  [[.digitsPlus, .lit ['.'], .digitsPlus],
   [.digitsPlus, .lit ['.'], .digitsPlus, .lit ['.'], .digitsPlus]]

/-- `^v\d+\.\d+(\.\d+)?$`, the generic v-prefixed fallback, expanded. -/
def vRE : RegEx :=
  [[.lit ['v'], .digitsPlus, .lit ['.'], .digitsPlus],
   [.lit ['v'], .digitsPlus, .lit ['.'], .digitsPlus, .lit ['.'], .digitsPlus]]

/-- `VERSION_PATTERNS` from the source, key for key in source order. -/
def VERSION_PATTERNS : List (String × RegEx) :=
  [("dashy", regRelease3),
   ("filebrowser", regV3),
   ("uptimekuma", reg3),
   ("grafana", reg3),
   ("prometheus", regV3),
   ("loki", reg3),
   ("promtail", reg3),
   ("authentik", regYear3),
   ("vaultwarden", reg3),
   ("nextcloud", reg3),
   ("teslamate", reg3),
   ("home-assistant", regYear2),
   ("zigbee2mqtt", reg3),
   ("matter-server", reg3),
   ("redis", regRedis),
   ("postgres", regPostgres),
   ("mariadb", reg3),
   ("immich", reg3),
   ("romm", reg3),
   ("actualserver", reg3),
   ("wikijs", reg3),
   ("onlyoffice", reg3),
   ("duplicati", reg3),
   ("mosquitto", reg3),
   ("npmplus", regInt),
   ("cloudflared", regYear3),
   ("github-runner", regV3),
   ("autokuma", reg3)]

/-- `get_image_key` from the source: strip the four registry prefixes, take
the last slash-separated component, and drop a tag after a colon. -/
def get_image_key (image_name : String) : String :=
  let l1 := replaceL "ghcr.io/".data [] image_name.data
  let l2 := replaceL "lscr.io/".data [] l1
  let l3 := replaceL "docker.io/".data [] l2
  let l4 := replaceL "quay.io/".data [] l3
  if l4.contains '/' then
    ⟨((splitChar '/' l4).getLastD []).takeWhile (fun c => c != ':')⟩
  else
    ⟨l4.takeWhile (fun c => c != ':')⟩

/-! ## The packaging.version model (source line 13 and 106, 325)

`version.parse` is modelled on the form the script's patterns produce after
cleaning: a dotted sequence of decimal numerals, compared like PEP 440
release segments (missing trailing components count as zero, realised by
dropping trailing zeros and comparing lexicographically).  Any other string
is a parse failure, which in the source raises `InvalidVersion`. -/

/-- Parse a cleaned tag as a dotted numeric version. -/
def parseVer (l : List Char) : Option (List Nat) :=
  let parts := splitChar '.' l
  if parts.all (fun p => !p.isEmpty && p.all Char.isDigit) then
    some (parts.map (fun p => p.foldl (fun n c => n * 10 + (c.toNat - 48)) 0))
  else none

/-- Release-segment normalisation: drop trailing zero components. -/
def normTail (l : List Nat) : List Nat := (l.reverse.dropWhile (fun n => n == 0)).reverse

/-- Lexicographic strict order on normalised release segments. -/
def lexLt : List Nat → List Nat → Bool
  | [], [] => false
  | [], _ :: _ => true
  | _ :: _, [] => false
  | a :: as, b :: bs =>
    if a < b then true else if b < a then false else lexLt as bs

/-- The comparison key of a tag: its parsed, normalised cleaned version. -/
def verKey (t : String) : List Nat := normTail ((parseVer (cleanL t.data)).getD [])

/-- `compare_versions` from the source: true when `latest` is strictly newer
than `current`; a parse failure on either side yields false. -/
def compare_versions (current latest : String) : Bool :=
  match parseVer (cleanL current.data), parseVer (cleanL latest.data) with
  | some a, some b => lexLt (normTail a) (normTail b)
  | _, _ => false

theorem lexLt_irrefl : ∀ l : List Nat, lexLt l l = false := by
  intro l
  induction l with
  | nil => rfl
  | cons a as ih => simp [lexLt, ih]

theorem lexLt_trans :
    ∀ a b c : List Nat, lexLt a b = true → lexLt b c = true → lexLt a c = true := by
  intro a
  induction a with
  | nil =>
    intro b c hab hbc
    cases b with
    | nil => simp [lexLt] at hab
    | cons y ys =>
      cases c with
      | nil => simp [lexLt] at hbc
      | cons z zs => rfl
  | cons x xs ih =>
    intro b c hab hbc
    cases b with
    | nil => simp [lexLt] at hab
    | cons y ys =>
      cases c with
      | nil => simp [lexLt] at hbc
      | cons z zs =>
        simp only [lexLt] at hab hbc ⊢
        by_cases h1 : x < y
        · by_cases h2 : y < z
          · simp [Nat.lt_trans h1 h2]
          · by_cases h3 : z < y
            · rw [if_neg h2, if_pos h3] at hbc
              exact absurd hbc (by simp)
            · have hyz : y = z := Nat.le_antisymm (Nat.le_of_not_lt h3) (Nat.le_of_not_lt h2)
              subst hyz
              simp [h1]
        · by_cases h3 : y < x
          · rw [if_neg h1, if_pos h3] at hab
            exact absurd hab (by simp)
          · have hxy : x = y := Nat.le_antisymm (Nat.le_of_not_lt h3) (Nat.le_of_not_lt h1)
            subst hxy
            rw [if_neg (Nat.lt_irrefl x), if_neg (Nat.lt_irrefl x)] at hab
            by_cases h2 : x < z
            · simp [h2]
            · by_cases h4 : z < x
              · rw [if_neg h2, if_pos h4] at hbc
                exact absurd hbc (by simp)
              · have hxz : x = z := Nat.le_antisymm (Nat.le_of_not_lt h4) (Nat.le_of_not_lt h2)
                subst hxz
                rw [if_neg (Nat.lt_irrefl x), if_neg (Nat.lt_irrefl x)] at hbc ⊢
                exact ih ys zs hab hbc

theorem lexLt_neg_trans :
    ∀ a b c : List Nat, lexLt a b = false → lexLt b c = false → lexLt a c = false := by
  intro a
  induction a with
  | nil =>
    intro b c hab hbc
    cases b with
    | cons y ys => simp [lexLt] at hab
    | nil =>
      cases c with
      | nil => rfl
      | cons z zs => simp [lexLt] at hbc
  | cons x xs ih =>
    intro b c hab hbc
    cases c with
    | nil => cases b <;> rfl
    | cons z zs =>
      cases b with
      | nil => simp [lexLt] at hbc
      | cons y ys =>
        simp only [lexLt] at hab hbc ⊢
        by_cases h1 : x < y
        · rw [if_pos h1] at hab
          exact absurd hab (by simp)
        · by_cases h2 : y < z
          · rw [if_pos h2] at hbc
            exact absurd hbc (by simp)
          · by_cases h3 : y < x
            · have hzx : z < x := Nat.lt_of_le_of_lt (Nat.le_of_not_lt h2) h3
              rw [if_neg (Nat.lt_asymm hzx), if_pos hzx]
            · have hxy : x = y := Nat.le_antisymm (Nat.le_of_not_lt h3) (Nat.le_of_not_lt h1)
              subst hxy
              by_cases h4 : z < x
              · rw [if_neg (Nat.lt_asymm h4), if_pos h4]
              · have hxz : x = z := Nat.le_antisymm (Nat.le_of_not_lt h4) (Nat.le_of_not_lt h2)
                subst hxz
                rw [if_neg (Nat.lt_irrefl x), if_neg (Nat.lt_irrefl x)] at hab hbc ⊢
                exact ih ys zs hab hbc

/-! ## Docker-Hub-style provider (source lines 271-333) -/

/-- The `valid_tags` accumulation of `get_dockerhub_latest_tag`: one pass
appending pattern matches when a pattern is registered, then — only when
that left nothing — one pass appending matches of the bare generic rule or,
failing that per tag, of the v-prefixed generic rule. -/
def valid_tags_dockerhub (pat : Option RegEx) (tags : List String) : List String :=
  let v1 :=
    match pat with
    | some p => tags.foldl (fun acc t => if reMatch p t then acc ++ [t] else acc) []
    | none => []
  if v1.isEmpty then
    tags.foldl (fun acc t =>
      if reMatch bareRE t then acc ++ [t]
      else if reMatch vRE t then acc ++ [t]
      else acc) []
  else v1

/-- `sorted(valid_tags, key=..., reverse=True)[0]` on a non-empty list:
Python's sort is stable, so this is the first element with maximal parsed
version. -/
def firstMax : List String → Option String
  | [] => none
  | x :: xs =>
    some (xs.foldl (fun b t => if lexLt (verKey b) (verKey t) then t else b) x)

/-- Selection step of `get_dockerhub_latest_tag` (lines 297-329): filter,
then sort by parsed cleaned version picking the highest; when computing a
sort key raises (a survivor whose cleaned form does not parse), fall back to
the first surviving tag. -/
def dockerhubCore (pat : Option RegEx) (tags : List String) : Option String :=
  let valid := valid_tags_dockerhub pat tags
  if valid.isEmpty then none
  else if valid.all (fun t => (parseVer (cleanL t.data)).isSome) then firstMax valid
  else valid.head?

/-- `get_dockerhub_latest_tag` from the source; `resp` holds the tag names
of the registry response, `none` standing for the HTTP failure and
rate-limited paths that return no candidate. -/
def get_dockerhub_latest_tag (registry_path : String) (resp : Option (List String)) :
    Option String :=
  match resp with
  | none => none
  | some tags =>
    if tags.isEmpty then none
    else dockerhubCore (VERSION_PATTERNS.lookup (get_image_key registry_path)) tags

/-! ## GHCR-style provider (source lines 199-248) -/

/-- Inner loop of `get_ghcr_latest_tag`: the first tag matching the
registered pattern — or, in the same `elif` chain, either generic rule —
is returned at once. -/
def ghcrTagLoop (pat : Option RegEx) : List String → Option String
  | [] => none
  | t :: rest =>
    if (match pat with | some p => reMatch p t | none => false) then some t
    else if reMatch bareRE t then some t
    else if reMatch vRE t then some t
    else ghcrTagLoop pat rest

/-- Outer loop of `get_ghcr_latest_tag` over the version entries, each
carrying its tag list. -/
def ghcrVerLoop (pat : Option RegEx) : List (List String) → Option String
  | [] => none
  | tags :: rest =>
    match ghcrTagLoop pat tags with
    | some t => some t
    | none => ghcrVerLoop pat rest

/-- `get_ghcr_latest_tag` from the source; `resp` holds the tag lists of the
package-versions response, `none` standing for the failure paths. -/
def get_ghcr_latest_tag (registry_path : String) (resp : Option (List (List String))) :
    Option String :=
  match resp with
  | none => none
  | some versions =>
    if (splitChar '/' registry_path.data).length < 2 then none
    else if versions.isEmpty then none
    else ghcrVerLoop (VERSION_PATTERNS.lookup (get_image_key registry_path)) versions

/-- The tag test applied by the GHCR loop, as one predicate. -/
def ghcrPred (pat : Option RegEx) (t : String) : Bool :=
  (match pat with | some p => reMatch p t | none => false) ||
    reMatch bareRE t || reMatch vRE t

/-! ### The selection lemmas -/

/-- The single-branch append loop is a filter. -/
theorem foldl_append_filter (p : String → Bool) :
    ∀ (l acc : List String),
      l.foldl (fun acc t => if p t then acc ++ [t] else acc) acc = acc ++ l.filter p := by
  intro l
  induction l with
  | nil => intro acc; simp
  | cons a r ih =>
    intro acc
    cases hp : p a with
    | true =>
      rw [List.foldl_cons,
        show (if p a = true then acc ++ [a] else acc) = acc ++ [a] from by simp [hp],
        ih (acc ++ [a])]
      simp [List.filter_cons, hp]
    | false =>
      rw [List.foldl_cons,
        show (if p a = true then acc ++ [a] else acc) = acc from by simp [hp],
        ih acc]
      simp [List.filter_cons, hp]

/-- The two-branch `elif` append loop filters the disjunction. -/
theorem foldl_append_filter2 (p q : String → Bool) :
    ∀ (l acc : List String),
      l.foldl (fun acc t =>
          if p t then acc ++ [t] else if q t then acc ++ [t] else acc) acc =
        acc ++ l.filter (fun t => p t || q t) := by
  intro l
  induction l with
  | nil => intro acc; simp
  | cons a r ih =>
    intro acc
    cases hp : p a with
    | true =>
      rw [List.foldl_cons,
        show (if p a = true then acc ++ [a] else if q a = true then acc ++ [a] else acc) =
          acc ++ [a] from by simp [hp],
        ih (acc ++ [a])]
      simp [List.filter_cons, hp]
    | false =>
      cases hq : q a with
      | true =>
        rw [List.foldl_cons,
          show (if p a = true then acc ++ [a] else if q a = true then acc ++ [a] else acc) =
            acc ++ [a] from by simp [hp, hq],
          ih (acc ++ [a])]
        simp [List.filter_cons, hp, hq]
      | false =>
        rw [List.foldl_cons,
          show (if p a = true then acc ++ [a] else if q a = true then acc ++ [a] else acc) =
            acc from by simp [hp, hq],
          ih acc]
        simp [List.filter_cons, hp, hq]

/-- The GHCR inner loop is `find?` with the combined predicate. -/
theorem ghcrTagLoop_eq (pat : Option RegEx) :
    ∀ l : List String, ghcrTagLoop pat l = l.find? (ghcrPred pat) := by
  intro l
  induction l with
  | nil => cases pat <;> rfl
  | cons t rest ih =>
    rcases pat with _ | p
    · cases h2 : reMatch bareRE t <;> cases h3 : reMatch vRE t <;>
        simp [ghcrTagLoop, ghcrPred, List.find?, h2, h3, ih]
    · cases h1 : reMatch p t <;> cases h2 : reMatch bareRE t <;> cases h3 : reMatch vRE t <;>
        simp [ghcrTagLoop, ghcrPred, List.find?, h1, h2, h3, ih]

/-- `find?` scans an append left to right. -/
theorem find?_append (p : String → Bool) :
    ∀ l1 l2 : List String,
      (l1 ++ l2).find? p =
        (match l1.find? p with | some t => some t | none => l2.find? p) := by
  intro l1 l2
  induction l1 with
  | nil => simp
  | cons a r ih =>
    cases hp : p a <;> simp [List.find?, hp, ih]

/-- The GHCR nested loops find the first combined match of the flattened
tag sequence. -/
theorem ghcrVerLoop_eq (pat : Option RegEx) :
    ∀ vss : List (List String), ghcrVerLoop pat vss = vss.flatten.find? (ghcrPred pat) := by
  intro vss
  induction vss with
  | nil => rfl
  | cons tags rest ih =>
    show (match ghcrTagLoop pat tags with
          | some t => some t
          | none => ghcrVerLoop pat rest) = _
    rw [ghcrTagLoop_eq, ih, List.flatten_cons, find?_append]

/-- C4 (amended): for the Docker-Hub-style listing, when a pattern is
registered and matches some candidate the surviving set is exactly the
pattern matches; otherwise it is the candidates matching the bare or the
v-prefixed generic rule, both collected in the same single pass — so the
fallback takes the union of the two generic rules, not the first rule that
yields something.  The GHCR-style provider instead returns the first
candidate, in registry order, that matches the pattern or either generic
rule in one combined test, so pattern and fallback matches do mix there. -/
theorem c4_thm :
    (∀ (p : RegEx) (tags : List String),
        valid_tags_dockerhub (some p) tags =
          (if (tags.filter (fun t => reMatch p t)).isEmpty then
            tags.filter (fun t => reMatch bareRE t || reMatch vRE t)
          else tags.filter (fun t => reMatch p t))) ∧
      (∀ tags : List String,
          valid_tags_dockerhub none tags =
            tags.filter (fun t => reMatch bareRE t || reMatch vRE t)) ∧
      (∀ (path : String) (vss : List (List String)),
          get_ghcr_latest_tag path (some vss) =
            (if (splitChar '/' path.data).length < 2 then none
             else vss.flatten.find?
               (ghcrPred (VERSION_PATTERNS.lookup (get_image_key path))))) := by
  refine ⟨?_, ?_, ?_⟩
  · intro p tags
    show (if (tags.foldl (fun acc t => if reMatch p t then acc ++ [t] else acc) []).isEmpty
          then _ else _) = _
    rw [foldl_append_filter (fun t => reMatch p t) tags [], List.nil_append,
      foldl_append_filter2 (fun t => reMatch bareRE t) (fun t => reMatch vRE t) tags [],
      List.nil_append]
  · intro tags
    have h := foldl_append_filter2 (fun t => reMatch bareRE t) (fun t => reMatch vRE t) tags []
    rw [List.nil_append] at h
    simpa [valid_tags_dockerhub] using h
  · intro path vss
    show (if (splitChar '/' path.data).length < 2 then none
          else if vss.isEmpty then none
          else ghcrVerLoop (VERSION_PATTERNS.lookup (get_image_key path)) vss) = _
    by_cases hshort : (splitChar '/' path.data).length < 2
    · rw [if_pos hshort, if_pos hshort]
    · rw [if_neg hshort, if_neg hshort]
      cases vss with
      | nil => rfl
      | cons tags rest =>
        rw [if_neg (by simp)]
        exact ghcrVerLoop_eq _ _

/-- C4 counterexample: for the image key `dashy`, whose registered pattern
is `^release-\d+\.\d+\.\d+$`, the GHCR provider returns `1.2.3` — a tag the
pattern does not match — although the pattern-matching candidate
`release-2.0.0` is present, so pattern-specific and generic-fallback
matching are combined in the same result. -/
theorem c4_cex :
    get_ghcr_latest_tag "lissy93/dashy" (some [["1.2.3"], ["release-2.0.0"]]) =
        some "1.2.3" ∧
      VERSION_PATTERNS.lookup (get_image_key "lissy93/dashy") = some regRelease3 ∧
      reMatch regRelease3 "1.2.3" = false ∧
      reMatch regRelease3 "release-2.0.0" = true := by
  refine ⟨by decide, by decide, by decide, by decide⟩

/-! ### The highest-version selection -/

/-- Invariant of the first-maximum fold: the result is the seed or a list
element, and no seed or element is strictly above it. -/
theorem foldl_max_inv :
    ∀ (xs : List String) (b r : String),
      xs.foldl (fun b t => if lexLt (verKey b) (verKey t) then t else b) b = r →
      (r = b ∨ r ∈ xs) ∧ lexLt (verKey r) (verKey b) = false ∧
        ∀ t ∈ xs, lexLt (verKey r) (verKey t) = false := by
  intro xs
  induction xs with
  | nil =>
    intro b r h
    simp only [List.foldl_nil] at h
    subst h
    exact ⟨Or.inl rfl, lexLt_irrefl _, by simp⟩
  | cons t ts ih =>
    intro b r h
    rw [List.foldl_cons] at h
    obtain ⟨hmem, hb2, hall⟩ := ih _ r h
    cases hc : lexLt (verKey b) (verKey t) with
    | true =>
      rw [show (if lexLt (verKey b) (verKey t) then t else b) = t from by simp [hc]]
        at hmem hb2
      have hrb : lexLt (verKey r) (verKey b) = false := by
        cases hrb : lexLt (verKey r) (verKey b) with
        | false => rfl
        | true =>
          have := lexLt_trans _ _ _ hrb hc
          rw [this] at hb2
          exact hb2
      refine ⟨?_, hrb, ?_⟩
      · rcases hmem with h1 | h1
        · exact Or.inr (h1 ▸ List.mem_cons_self t ts)
        · exact Or.inr (List.mem_cons_of_mem _ h1)
      · intro u hu
        rcases List.mem_cons.mp hu with h1 | h1
        · exact h1 ▸ hb2
        · exact hall u h1
    | false =>
      rw [show (if lexLt (verKey b) (verKey t) then t else b) = b from by simp [hc]]
        at hmem hb2
      refine ⟨?_, hb2, ?_⟩
      · rcases hmem with h1 | h1
        · exact Or.inl h1
        · exact Or.inr (List.mem_cons_of_mem _ h1)
      · intro u hu
        rcases List.mem_cons.mp hu with h1 | h1
        · exact h1 ▸ lexLt_neg_trans _ _ _ hb2 hc
        · exact hall u h1

/-- The first maximum belongs to the list and no element is strictly above
it in version order. -/
theorem firstMax_spec {l : List String} {r : String} (h : firstMax l = some r) :
    r ∈ l ∧ ∀ t ∈ l, lexLt (verKey r) (verKey t) = false := by
  cases l with
  | nil => simp [firstMax] at h
  | cons x xs =>
    have hfold :
        xs.foldl (fun b t => if lexLt (verKey b) (verKey t) then t else b) x = r := by
      simpa [firstMax] using h
    obtain ⟨hmem, hb, hall⟩ := foldl_max_inv xs x r hfold
    refine ⟨?_, ?_⟩
    · rcases hmem with h1 | h1
      · exact h1 ▸ List.mem_cons_self x xs
      · exact List.mem_cons_of_mem _ h1
    · intro t ht
      rcases List.mem_cons.mp ht with h1 | h1
      · exact h1 ▸ hb
      · exact hall t h1

/-- C1 (amended): when every surviving candidate's cleaned version parses,
the Docker-Hub-style provider returns a surviving candidate that no other
survivor strictly exceeds in the numeric-dotted order — the maximum, not the
first in registry order; in particular for candidates 9.5.0, 9.5.1, 9.4.9
under the dotted-triple pattern it returns 9.5.1.  (The GHCR-style provider
does not share this policy: it returns the first matching tag in
registry-returned order — see the counterexample.) -/
theorem c1_thm :
    (∀ (pat : Option RegEx) (tags : List String) (r : String),
        (valid_tags_dockerhub pat tags).all
            (fun t => (parseVer (cleanL t.data)).isSome) = true →
        dockerhubCore pat tags = some r →
        r ∈ valid_tags_dockerhub pat tags ∧
          ∀ t ∈ valid_tags_dockerhub pat tags,
            lexLt (verKey r) (verKey t) = false) ∧
      get_dockerhub_latest_tag "grafana/grafana" (some ["9.5.0", "9.5.1", "9.4.9"]) =
        some "9.5.1" := by
  constructor
  · intro pat tags r hall hcore
    unfold dockerhubCore at hcore
    by_cases hemp : (valid_tags_dockerhub pat tags).isEmpty
    · rw [if_pos hemp] at hcore
      exact absurd hcore (by simp)
    · rw [if_neg hemp, if_pos hall] at hcore
      exact firstMax_spec hcore
  · decide

/-- C1 counterexample: with current tag 9.5.0 and surviving candidates
9.5.0, 9.5.1, 9.4.9 (dotted-triple pattern of the `grafana` key), the
GHCR-style provider resolves 9.5.0 — the first candidate in
registry-returned order — not the maximum 9.5.1 the claim requires of every
provider. -/
theorem c1_cex :
    get_ghcr_latest_tag "grafana/grafana" (some [["9.5.0"], ["9.5.1"], ["9.4.9"]]) =
        some "9.5.0" ∧
      get_ghcr_latest_tag "grafana/grafana" (some [["9.5.0"], ["9.5.1"], ["9.4.9"]]) ≠
        some "9.5.1" := by
  refine ⟨by decide, by decide⟩

/-- C1 witness: the amended maximum-selection theorem applied to the
dotted-triple pattern and the candidates of the spec's worked example. -/
theorem c1_wit :
    "9.5.1" ∈ valid_tags_dockerhub (some reg3) ["9.5.0", "9.5.1", "9.4.9"] ∧
      ∀ t ∈ valid_tags_dockerhub (some reg3) ["9.5.0", "9.5.1", "9.4.9"],
        lexLt (verKey "9.5.1") (verKey t) = false :=
  c1_thm.1 (some reg3) ["9.5.0", "9.5.1", "9.4.9"] "9.5.1" (by decide) (by decide)

/-- C10: when some surviving candidate's cleaned version fails to parse —
the situation in which Python's sort raises — the Docker-Hub-style selection
returns the first surviving candidate in registry-returned order, and in
particular still returns a candidate rather than none. -/
theorem c10_thm (pat : Option RegEx) (tags : List String) (t : String)
    (hmem : t ∈ valid_tags_dockerhub pat tags)
    (hbad : parseVer (cleanL t.data) = none) :
    dockerhubCore pat tags = (valid_tags_dockerhub pat tags).head? ∧
      (dockerhubCore pat tags).isSome = true := by
  have hne : valid_tags_dockerhub pat tags ≠ [] := by
    intro he
    rw [he] at hmem
    simp at hmem
  have hemp : (valid_tags_dockerhub pat tags).isEmpty = false := by
    cases hv : valid_tags_dockerhub pat tags with
    | nil => exact absurd hv hne
    | cons a r => rfl
  have hall : (valid_tags_dockerhub pat tags).all
      (fun u => (parseVer (cleanL u.data)).isSome) = false := by
    cases hA : (valid_tags_dockerhub pat tags).all
        (fun u => (parseVer (cleanL u.data)).isSome) with
    | false => rfl
    | true =>
      have := List.all_eq_true.mp hA t hmem
      rw [hbad] at this
      exact absurd this (by simp)
  have hcore : dockerhubCore pat tags = (valid_tags_dockerhub pat tags).head? := by
    unfold dockerhubCore
    rw [if_neg (by simp [hemp]), if_neg (by simp [hall])]
  refine ⟨hcore, ?_⟩
  rw [hcore]
  cases hv : valid_tags_dockerhub pat tags with
  | nil => exact absurd hv hne
  | cons a r => rfl

/-- A sample per-image pattern (`^x\d+$`) whose matches are rejected by the
version parser after cleaning, exercising the sort-failure fallback. -/
def regX : RegEx := [[.lit ['x'], .digitsPlus]]

/-- C10 witness: the fallback theorem applied to a pattern whose surviving
candidates x1, x2 have unparsable cleaned versions; the first survivor x1 is
returned. -/
theorem c10_wit :
    "x1" ∈ valid_tags_dockerhub (some regX) ["x1", "x2"] ∧
      dockerhubCore (some regX) ["x1", "x2"] =
        (valid_tags_dockerhub (some regX) ["x1", "x2"]).head? ∧
      (dockerhubCore (some regX) ["x1", "x2"]).isSome = true :=
  ⟨by decide,
    (c10_thm (some regX) ["x1", "x2"] "x1" (by decide) (by decide)).1,
    (c10_thm (some regX) ["x1", "x2"] "x1" (by decide) (by decide)).2⟩

/-! ## Changelog fetcher (source lines 335-388)

`get_github_releases` cleans tags with chained `str.replace` calls: every
occurrence of `release-`, then of `v`, then of `-alpine`, anywhere in the
string, is removed — unlike `clean_version`, and with no `-slim` handling.
Range membership uses Python's code-point string comparison.  The `fetched`
argument carries the release list of the HTTP response (`none` for the
failure paths); a `malformed` item stands for a release entry whose field
access raises, which the inner handler skips. -/

/-- One release of the GitHub releases response. -/
structure ReleaseInfo where
  tag_name : String
  name : String
  body : String
  url : String
  published : String
deriving DecidableEq, Repr

/-- A response item: a readable release or one whose processing raises. -/
inductive RelItem where
  | ok (r : ReleaseInfo)
  | malformed
deriving DecidableEq, Repr

/-- One kept changelog entry. -/
structure ChangeEntry where
  version : String
  name : String
  body : String
  url : String
  published : String
deriving DecidableEq, Repr

/-- The changelog cleaning:
`.replace('release-', '').replace('v', '').replace('-alpine', '')`. -/
def cgCleanL (l : List Char) : List Char :=
  replaceL "-alpine".data [] (replaceL "v".data [] (replaceL "release-".data [] l))

/-- Processing of one release: keep it when its cleaned tag equals the
cleaned new version or lies in the half-open string-order range, and its
sanitized version and name are non-empty. -/
def evalRelease (oldC newC : List Char) : RelItem → Option ChangeEntry
  | RelItem.malformed => none
  | RelItem.ok r =>
    if cgCleanL r.tag_name.data == newC ||
        (strLtL oldC (cgCleanL r.tag_name.data) &&
          strLeL (cgCleanL r.tag_name.data) newC) then
      if sanitize_for_github_env r.tag_name != "" &&
          sanitize_for_github_env r.name != "" then
        some ⟨sanitize_for_github_env r.tag_name, sanitize_for_github_env r.name,
          sanitize_for_github_env r.body, r.url, ⟨r.published.data.take 10⟩⟩
      else none
    else none

/-- `get_github_releases` from the source. -/
def get_github_releases (fetched : Option (List RelItem))
    (old_version new_version : String) : Option (List ChangeEntry) :=
  match fetched with
  | none => none
  | some releases =>
    let changes := releases.foldl
      (fun acc it =>
        match evalRelease (cgCleanL old_version.data) (cgCleanL new_version.data) it with
        | some e => acc ++ [e]
        | none => acc) []
    some (changes.take 3)

/-- The append loop over releases is a `filterMap`. -/
theorem foldl_append_filterMap (f : RelItem → Option ChangeEntry) :
    ∀ (l : List RelItem) (acc : List ChangeEntry),
      l.foldl (fun acc it => match f it with | some e => acc ++ [e] | none => acc) acc =
        acc ++ l.filterMap f := by
  intro l
  induction l with
  | nil => intro acc; simp
  | cons a r ih =>
    intro acc
    cases hf : f a with
    | some e =>
      rw [List.foldl_cons,
        show (match f a with | some e => acc ++ [e] | none => acc) = acc ++ [e] from by
          rw [hf],
        ih (acc ++ [e])]
      simp [List.filterMap_cons, hf]
    | none =>
      rw [List.foldl_cons,
        show (match f a with | some e => acc ++ [e] | none => acc) = acc from by rw [hf],
        ih acc]
      simp [List.filterMap_cons, hf]

/-- A kept entry always carries a non-empty sanitized version and name. -/
theorem evalRelease_fields {o n : List Char} {it : RelItem} {e : ChangeEntry}
    (h : evalRelease o n it = some e) : e.version ≠ "" ∧ e.name ≠ "" := by
  cases it with
  | malformed => simp [evalRelease] at h
  | ok r =>
    have hdef : evalRelease o n (RelItem.ok r) =
        (if cgCleanL r.tag_name.data == n ||
            (strLtL o (cgCleanL r.tag_name.data) && strLeL (cgCleanL r.tag_name.data) n) then
          (if sanitize_for_github_env r.tag_name != "" &&
              sanitize_for_github_env r.name != "" then
            some ⟨sanitize_for_github_env r.tag_name, sanitize_for_github_env r.name,
              sanitize_for_github_env r.body, r.url, ⟨r.published.data.take 10⟩⟩
          else none)
        else none) := rfl
    rw [hdef] at h
    split at h
    · split at h
      · rename_i hguard
        obtain ⟨h1, h2⟩ := Bool.and_eq_true_iff.mp hguard
        injection h with h3
        constructor
        · rw [← h3]
          simpa using h1
        · rw [← h3]
          simpa using h2
      · exact absurd h (by simp)
    · exact absurd h (by simp)

/-- C9 (amended): for every fetched release list the changelog result is
exactly the releases kept by the cleaned-tag equality / string-order range
test, in registry order, capped to the first 3, each with a non-empty
sanitized version and name — where the cleaning removes every occurrence of
`release-`, `v` and `-alpine` anywhere in the tag and never strips `-slim`,
unlike the comparator's anchored `clean_version`. -/
theorem c9_thm (releases : List RelItem) (old_version new_version : String) :
    get_github_releases (some releases) old_version new_version =
        some ((releases.filterMap
          (evalRelease (cgCleanL old_version.data) (cgCleanL new_version.data))).take 3) ∧
      ((releases.filterMap
          (evalRelease (cgCleanL old_version.data) (cgCleanL new_version.data))).take
          3).length ≤ 3 ∧
      ((releases.filterMap
          (evalRelease (cgCleanL old_version.data) (cgCleanL new_version.data))).take
          3).all (fun e => e.version != "" && e.name != "") = true := by
  refine ⟨?_, ?_, ?_⟩
  · show some ((releases.foldl _ []).take 3) = _
    rw [foldl_append_filterMap
      (evalRelease (cgCleanL old_version.data) (cgCleanL new_version.data)) releases [],
      List.nil_append]
  · exact List.length_take_le 3 _
  · refine List.all_eq_true.mpr ?_
    intro e he
    have he2 := List.mem_of_mem_take he
    obtain ⟨it, _, heval⟩ := List.mem_filterMap.mp he2
    obtain ⟨h1, h2⟩ := evalRelease_fields heval
    simp [h1, h2]

/-- Modelled from the spec's words for the C9 comparison only: the same
changelog filter, but with release tags and endpoints cleaned exactly like
the comparator's `clean_version` (one anchored leading `release-` or `v`,
one trailing `-alpine` or `-slim`), as the claim asserts. -/
def evalReleaseSpecClean (oldC newC : List Char) : RelItem → Option ChangeEntry
  | RelItem.malformed => none
  | RelItem.ok r =>
    if cleanL r.tag_name.data == newC ||
        (strLtL oldC (cleanL r.tag_name.data) &&
          strLeL (cleanL r.tag_name.data) newC) then
      if sanitize_for_github_env r.tag_name != "" &&
          sanitize_for_github_env r.name != "" then
        some ⟨sanitize_for_github_env r.tag_name, sanitize_for_github_env r.name,
          sanitize_for_github_env r.body, r.url, ⟨r.published.data.take 10⟩⟩
      else none
    else none

/-- Modelled from the spec's words for the C9 comparison only: the changelog
lookup under the comparator's cleaning. -/
def get_github_releases_specClean (fetched : Option (List RelItem))
    (old_version new_version : String) : Option (List ChangeEntry) :=
  match fetched with
  | none => none
  | some releases =>
    some ((releases.filterMap
      (evalReleaseSpecClean (cleanL old_version.data) (cleanL new_version.data))).take 3)

/-- C9 counterexample: a release tagged `9.5.1-slim` between old `9.4.9` and
new `9.5.1`.  Under the comparator's cleaning the tag equals the new version
and the entry is kept; the source's `replace`-based cleaning leaves
`9.5.1-slim`, which fails both the equality and the range test, so the entry
is dropped — the two cleanings are not the same. -/
theorem c9_cex :
    get_github_releases
        (some [RelItem.ok ⟨"9.5.1-slim", "Release 9.5.1", "", "u", "2024-01-02T10:00:00Z"⟩])
        "9.4.9" "9.5.1" = some [] ∧
      get_github_releases_specClean
        (some [RelItem.ok ⟨"9.5.1-slim", "Release 9.5.1", "", "u", "2024-01-02T10:00:00Z"⟩])
        "9.4.9" "9.5.1" =
        some [⟨"9.5.1-slim", "Release 9.5.1", "", "u", "2024-01-02"⟩] := by
  refine ⟨by decide, by decide⟩

/-! ## Update orchestrator (source lines 390-470 and 557-569)

`check_service_for_updates` is embedded with the file read, the registry
call and the changelog fetch as parameters holding their outcomes.  The
service loop body has no exception handler in the source (only the file
read does, and `main` has none around the call), so a raising step is an
`Except.error` that propagates out of the manifest and out of the run.  The
YAML values a manifest can hold are modelled by the shapes that behave
differently in the loop: a service entry that is `null` or a plain string
(where `'image' not in cfg` misbehaves or substring-tests), and an `image`
value that is not a string (where `.endswith` raises). -/

/-- `REPO_MAPPINGS` from the source (lines 16-67). -/
def REPO_MAPPINGS : List (String × String) :=
  [("lissy93/dashy", "lissy93/dashy"),
   ("filebrowser/filebrowser", "filebrowser/filebrowser"),
   ("xavierh/goaccess-for-nginxproxymanager", "xavier-hernandez/goaccess-for-nginxproxymanager"),
   ("lscr.io/linuxserver/duplicati", "linuxserver/docker-duplicati"),
   ("honeygain/honeygain", "honeygain/honeygain-docker"),
   ("vaultwarden/server", "dani-garcia/vaultwarden"),
   ("goauthentik/server", "goauthentik/server"),
   ("ghcr.io/imagegenius/immich", "imagegenius/docker-immich"),
   ("rommapp/romm", "rommapp/romm"),
   ("nextcloud", "nextcloud/server"),
   ("actualbudget/actual-server", "actualbudget/actual-server"),
   ("requarks/wiki", "requarks/wiki"),
   ("grafana/grafana", "grafana/grafana"),
   ("prom/prometheus", "prometheus/prometheus"),
   ("grafana/loki", "grafana/loki"),
   ("grafana/promtail", "grafana/loki"),
   ("louislam/uptime-kuma", "louislam/uptime-kuma"),
   ("ghcr.io/bigboot/autokuma", "BigBoot/AutoKuma"),
   ("ghcr.io/home-assistant/home-assistant", "home-assistant/core"),
   ("eclipse-mosquitto", "eclipse/mosquitto"),
   ("koenkk/zigbee2mqtt", "Koenkk/zigbee2mqtt"),
   ("ghcr.io/home-assistant-libs/python-matter-server", "home-assistant-libs/python-matter-server"),
   ("teslamate/teslamate", "adriankumpf/teslamate"),
   ("teslamate/grafana", "adriankumpf/teslamate"),
   ("postgres", "postgres/postgres"),
   ("redis", "redis/redis"),
   ("mariadb", "MariaDB/server"),
   ("bitnami/redis", "bitnami/containers"),
   ("zoeyvid/npmplus", "ZoeyVid/NPMplus"),
   ("figro/unraid-cloudflared-tunnel", "cloudflare/cloudflared"),
   ("myoung34/github-runner", "myoung34/docker-github-actions-runner")]

/-- A YAML value in the `image` position. -/
inductive ImgVal where
  | strImg (s : String)
  | intImg (k : Int)
  | nullImg
deriving DecidableEq, Repr

/-- A YAML value in the service-configuration position. -/
inductive SvcCfg where
  | nullCfg
  | strCfg (s : String)
  | dictCfg (image : Option ImgVal)
deriving DecidableEq, Repr

/-- The loaded manifest document: an empty document (`None`, on which
`'services' not in compose_data` raises) or a mapping with or without a
`services` mapping. -/
inductive YamlDoc where
  | nullDoc
  | dictDoc (services : Option (List (String × SvcCfg)))
deriving DecidableEq, Repr

/-- One staged update of the source's `updates.append({...})`. -/
structure UpdateRec where
  service : String
  file : String
  old_version : String
  new_version : String
  image : String
  changelog : Option (List ChangeEntry)
  repo : Option String
deriving DecidableEq, Repr

/-- Python `current_image.rsplit(':', 1)` when a colon is present: the part
before the last colon and the part after it. -/
def rsplitColon (l : List Char) : Option (List Char × List Char) :=
  if l.contains ':' then
    some (((l.reverse.dropWhile (fun c => c != ':')).drop 1).reverse,
      (l.reverse.takeWhile (fun c => c != ':')).reverse)
  else none

/-- Evaluation of one service of the loop body (source lines 410-454):
skip rules, the provider call, the version comparison, the optional
changelog fetch, the staged record and the in-place image rewrite.  The
`provider` parameter is `get_latest_docker_tag`, total because of its
catch-all handler; `fetch` holds the releases response per repository. -/
def evalService (provider : String → Option String)
    (fetch : String → Option (List RelItem)) (path n : String) :
    SvcCfg → Except String (Option UpdateRec × SvcCfg)
  | SvcCfg.nullCfg => .error "TypeError: argument of type NoneType is not iterable"
  | SvcCfg.strCfg s =>
    if pyIn "image".data s.data then .error "TypeError: string indices must be integers"
    else .ok (none, SvcCfg.strCfg s)
  | SvcCfg.dictCfg none => .ok (none, SvcCfg.dictCfg none)
  | SvcCfg.dictCfg (some ImgVal.nullImg) =>
    .error "AttributeError: NoneType object has no attribute endswith"
  | SvcCfg.dictCfg (some (ImgVal.intImg _)) =>
    .error "AttributeError: int object has no attribute endswith"
  | SvcCfg.dictCfg (some (ImgVal.strImg img)) =>
    if pyEndsWith ":latest".data img.data then .ok (none, SvcCfg.dictCfg (some (ImgVal.strImg img)))
    else
      match rsplitColon img.data with
      | none => .ok (none, SvcCfg.dictCfg (some (ImgVal.strImg img)))
      | some (nm, tg) =>
        match provider ⟨nm⟩ with
        | none => .ok (none, SvcCfg.dictCfg (some (ImgVal.strImg img)))
        | some latest =>
          if compare_versions ⟨tg⟩ latest then
            .ok (some ⟨n, path, ⟨tg⟩, latest, ⟨nm⟩,
                (match REPO_MAPPINGS.lookup (⟨nm⟩ : String) with
                 | some rp => get_github_releases (fetch rp) ⟨tg⟩ latest
                 | none => none),
                REPO_MAPPINGS.lookup (⟨nm⟩ : String)⟩,
              SvcCfg.dictCfg (some (ImgVal.strImg ((⟨nm⟩ : String) ++ ":" ++ latest))))
          else .ok (none, SvcCfg.dictCfg (some (ImgVal.strImg img)))

/-- The service loop: no handler, so an error aborts the remaining services
and loses the earlier results, as an uncaught exception does. -/
def svcLoop (provider : String → Option String)
    (fetch : String → Option (List RelItem)) (path : String) :
    List (String × SvcCfg) → Except String (List UpdateRec × List (String × SvcCfg))
  | [] => .ok ([], [])
  | (n, c) :: rest =>
    match evalService provider fetch path n c with
    | .error e => .error e
    | .ok (u, c2) =>
      match svcLoop provider fetch path rest with
      | .error e => .error e
      | .ok (us, rest2) =>
        .ok ((match u with | some rec0 => rec0 :: us | none => us), (n, c2) :: rest2)

/-- `check_service_for_updates` from the source.  `load` is the outcome of
reading and parsing the manifest (its handler turns a read error into no
updates); `writeOk` tells whether the final write succeeds (its handler
returns the updates with `modified = False`). -/
def check_service_for_updates (path : String) (load : Except String YamlDoc)
    (provider : String → Option String) (fetch : String → Option (List RelItem))
    (writeOk : Bool) : Except String (List UpdateRec × Bool) :=
  if pyIn "github-runner".data path.data ||
      pyIn "automation/github-runner".data path.data then .ok ([], false)
  else
    match load with
    | .error _ => .ok ([], false)
    | .ok YamlDoc.nullDoc => .error "TypeError: argument of type NoneType is not iterable"
    | .ok (YamlDoc.dictDoc none) => .ok ([], false)
    | .ok (YamlDoc.dictDoc (some svcs)) =>
      match svcLoop provider fetch path svcs with
      | .error e => .error e
      | .ok (updates, _svcs2) => .ok (updates, !updates.isEmpty && writeOk)

/-- The manifest loop of `main` (lines 557-569): no handler around the
per-manifest call, so an error aborts the whole run. -/
def runAll (provider : String → Option String)
    (fetch : String → Option (List RelItem)) :
    List (String × Except String YamlDoc × Bool) → Except String (List UpdateRec)
  | [] => .ok []
  | (p, load, w) :: rest =>
    match check_service_for_updates p load provider fetch w with
    | .error e => .error e
    | .ok (us, _m) =>
      match runAll provider fetch rest with
      | .error e => .error e
      | .ok more => .ok (us ++ more)

/-- C3: a manifest whose path contains the protected `github-runner`
substring is skipped before anything is read: no update record is produced
and the file is reported unmodified, whatever the manifest holds and
whatever any provider would answer. -/
theorem c3_thm (path : String) (load : Except String YamlDoc)
    (provider : String → Option String) (fetch : String → Option (List RelItem))
    (writeOk : Bool) (h : pyIn "github-runner".data path.data = true) :
    check_service_for_updates path load provider fetch writeOk = .ok ([], false) := by
  unfold check_service_for_updates
  rw [if_pos (by simp [h])]

/-- C3 witness: the protected-path theorem at the CI-runner manifest path,
with a manifest whose evaluation would raise were it ever reached. -/
theorem c3_wit :
    pyIn "github-runner".data
        "services/automation/github-runner/docker-compose.yml".data = true ∧
      check_service_for_updates "services/automation/github-runner/docker-compose.yml"
        (.ok YamlDoc.nullDoc) (fun _ => some "99.0.0") (fun _ => none) true =
        .ok ([], false) :=
  ⟨by decide, c3_thm _ _ _ _ _ (by decide)⟩

/-! ### The latest-tag exclusion -/

/-- A list is a prefix of itself extended. -/
theorem isPrefixOf_append_self (p t : List Char) : p.isPrefixOf (p ++ t) = true := by
  induction p with
  | nil => simp [List.isPrefixOf]
  | cons a r ih => simp [List.isPrefixOf, List.cons_append, ih]

/-- A list is a suffix of itself prepended. -/
theorem isSuffixOf_append_self (s l : List Char) : s.isSuffixOf (l ++ s) = true := by
  unfold List.isSuffixOf
  rw [List.reverse_append]
  exact isPrefixOf_append_self s.reverse l.reverse

/-- `dropWhile` on "not a colon" of a list containing a colon starts at the
colon. -/
theorem dropWhile_ne_colon :
    ∀ {r : List Char}, ':' ∈ r → ∃ t, r.dropWhile (fun c => c != ':') = ':' :: t := by
  intro r
  induction r with
  | nil => intro h; simp at h
  | cons a r0 ih =>
    intro h
    by_cases ha : a = ':'
    · subst ha
      exact ⟨r0, by simp [List.dropWhile_cons]⟩
    · have hne : (a != ':') = true := by simp [ha]
      rw [List.dropWhile_cons, if_pos hne]
      have h0 : ':' ∈ r0 := by
        rcases List.mem_cons.mp h with h1 | h1
        · exact absurd h1.symm ha
        · exact h1
      exact ih h0

/-- The right-split at the last colon reassembles the input. -/
theorem rsplitColon_eq {l nm tg : List Char} (h : rsplitColon l = some (nm, tg)) :
    l = nm ++ ':' :: tg := by
  unfold rsplitColon at h
  split at h
  · rename_i hc
    have hml : ':' ∈ l := by simpa using hc
    have hmr : ':' ∈ l.reverse := List.mem_reverse.mpr hml
    obtain ⟨t, ht⟩ := dropWhile_ne_colon hmr
    have hsplit : l.reverse.takeWhile (fun c => c != ':') ++ (':' :: t) = l.reverse := by
      rw [← ht]
      exact List.takeWhile_append_dropWhile _ _
    injection h with hpair
    rw [Prod.mk.injEq] at hpair
    obtain ⟨h1, h2⟩ := hpair
    have hnm : nm = t.reverse := by
      rw [← h1, ht]
      simp
    have htg : tg = (l.reverse.takeWhile (fun c => c != ':')).reverse := h2.symm
    calc l = l.reverse.reverse := (List.reverse_reverse l).symm
      _ = (l.reverse.takeWhile (fun c => c != ':') ++ (':' :: t)).reverse := by rw [hsplit]
      _ = (':' :: t).reverse ++ (l.reverse.takeWhile (fun c => c != ':')).reverse :=
          List.reverse_append _ _
      _ = nm ++ ':' :: tg := by
          rw [hnm, htg, List.reverse_cons]
          simp
  · exact absurd h (by simp)

/-- An update record staged by the service evaluation never carries the
floating tag as its old version. -/
theorem evalService_some {provider : String → Option String}
    {fetch : String → Option (List RelItem)} {path n : String} {c c2 : SvcCfg}
    {rec0 : UpdateRec}
    (h : evalService provider fetch path n c = .ok (some rec0, c2)) :
    rec0.old_version ≠ "latest" := by
  cases c with
  | nullCfg => simp [evalService] at h
  | strCfg s =>
    simp only [evalService] at h
    split at h <;> simp at h
  | dictCfg oimg =>
    cases oimg with
    | none => simp [evalService] at h
    | some iv =>
      cases iv with
      | nullImg => simp [evalService] at h
      | intImg k => simp [evalService] at h
      | strImg img =>
        simp only [evalService] at h
        split at h
        · simp at h
        · rename_i hlat
          cases heq : rsplitColon img.data with
          | none =>
            simp only [heq] at h
            simp at h
          | some pr =>
            obtain ⟨nm, tg⟩ := pr
            simp only [heq] at h
            cases hprov : provider ⟨nm⟩ with
            | none =>
              simp only [hprov] at h
              simp at h
            | some latest =>
              simp only [hprov] at h
              split at h
              · injection h with hp
                rw [Prod.mk.injEq] at hp
                have hsome := hp.1
                injection hsome with hbig
                intro habs
                have hver : rec0.old_version = (⟨tg⟩ : String) := by rw [← hbig]
                have heq2 : (⟨tg⟩ : String) = "latest" := hver.symm.trans habs
                have htg : tg = "latest".data := congrArg String.data heq2
                have himg : img.data = nm ++ ':' :: tg := rsplitColon_eq heq
                rw [htg] at himg
                have hsuffix : pyEndsWith ":latest".data img.data = true := by
                  unfold pyEndsWith
                  rw [himg]
                  exact isSuffixOf_append_self (':' :: "latest".data) nm
                exact hlat hsuffix
              · simp at h

/-- No update produced by the service loop has old version `latest`. -/
theorem svcLoop_no_latest {provider : String → Option String}
    {fetch : String → Option (List RelItem)} {path : String} :
    ∀ {svcs : List (String × SvcCfg)} {us : List UpdateRec}
      {svcs2 : List (String × SvcCfg)},
      svcLoop provider fetch path svcs = .ok (us, svcs2) →
      ∀ u ∈ us, u.old_version ≠ "latest" := by
  intro svcs
  induction svcs with
  | nil =>
    intro us svcs2 h u hu
    have h' : Except.ok (ε := String)
        (([], []) : List UpdateRec × List (String × SvcCfg)) = .ok (us, svcs2) := h
    injection h' with hp
    rw [Prod.mk.injEq] at hp
    rw [← hp.1] at hu
    simp at hu
  | cons p rest ih =>
    intro us svcs2 h u hu
    obtain ⟨n, c⟩ := p
    cases heval : evalService provider fetch path n c with
    | error e =>
      simp only [svcLoop, heval] at h
      exact absurd h (by simp)
    | ok pr =>
      obtain ⟨uo, c2⟩ := pr
      cases hloop : svcLoop provider fetch path rest with
      | error e =>
        simp only [svcLoop, heval, hloop] at h
        exact absurd h (by simp)
      | ok pr2 =>
        obtain ⟨us0, rest2⟩ := pr2
        simp only [svcLoop, heval, hloop] at h
        injection h with hp
        rw [Prod.mk.injEq] at hp
        cases uo with
        | none =>
          have hus : us = us0 := by simpa using hp.1.symm
          rw [hus] at hu
          exact ih hloop u hu
        | some rec0 =>
          have hus : us = rec0 :: us0 := by simpa using hp.1.symm
          rw [hus] at hu
          rcases List.mem_cons.mp hu with h1 | h1
          · rw [h1]
            exact evalService_some heval
          · exact ih hloop u h1

/-- C8: a service whose image carries the tag `latest` is excluded
unconditionally — its evaluation stages no record and leaves its
configuration untouched whatever the provider answers, and no update record
of any manifest evaluation has `latest` as its old version. -/
theorem c8_thm :
    (∀ (provider : String → Option String) (fetch : String → Option (List RelItem))
        (path n img : String),
        pyEndsWith ":latest".data img.data = true →
        evalService provider fetch path n (SvcCfg.dictCfg (some (ImgVal.strImg img))) =
          .ok (none, SvcCfg.dictCfg (some (ImgVal.strImg img)))) ∧
      (∀ (path : String) (load : Except String YamlDoc)
          (provider : String → Option String) (fetch : String → Option (List RelItem))
          (writeOk : Bool) (updates : List UpdateRec) (m : Bool),
          check_service_for_updates path load provider fetch writeOk = .ok (updates, m) →
          ∀ u ∈ updates, u.old_version ≠ "latest") := by
  constructor
  · intro provider fetch path n img h
    simp only [evalService]
    rw [if_pos h]
  · intro path load provider fetch writeOk updates m h u hu
    by_cases hgr : (pyIn "github-runner".data path.data ||
        pyIn "automation/github-runner".data path.data) = true
    · unfold check_service_for_updates at h
      rw [if_pos hgr] at h
      injection h with hp
      rw [Prod.mk.injEq] at hp
      rw [← hp.1] at hu
      simp at hu
    · unfold check_service_for_updates at h
      rw [if_neg hgr] at h
      cases load with
      | error e =>
        have h' : Except.ok (ε := String) (([], false) : List UpdateRec × Bool) =
            .ok (updates, m) := h
        injection h' with hp
        rw [Prod.mk.injEq] at hp
        rw [← hp.1] at hu
        simp at hu
      | ok doc =>
        cases doc with
        | nullDoc =>
          have h' : (Except.error "TypeError: argument of type NoneType is not iterable" :
              Except String (List UpdateRec × Bool)) = .ok (updates, m) := h
          exact absurd h' (by simp)
        | dictDoc osvc =>
          cases osvc with
          | none =>
            have h' : Except.ok (ε := String) (([], false) : List UpdateRec × Bool) =
                .ok (updates, m) := h
            injection h' with hp
            rw [Prod.mk.injEq] at hp
            rw [← hp.1] at hu
            simp at hu
          | some svcs =>
            have h' : (match svcLoop provider fetch path svcs with
                | .error e => (.error e : Except String (List UpdateRec × Bool))
                | .ok (us, _svcs2) => .ok (us, !us.isEmpty && writeOk)) =
                .ok (updates, m) := h
            cases hloop : svcLoop provider fetch path svcs with
            | error e =>
              simp only [hloop] at h'
              exact absurd h' (by simp)
            | ok pr =>
              obtain ⟨us, s2⟩ := pr
              simp only [hloop] at h'
              injection h' with hp
              rw [Prod.mk.injEq] at hp
              rw [← hp.1] at hu
              exact svcLoop_no_latest hloop u hu

/-- C8 witness: the exclusion theorem applied to a `latest`-tagged service,
with a provider that would otherwise offer an update, and the loop-level
statement at the resulting record-free evaluation. -/
theorem c8_wit :
    evalService (fun _ => some "99.9.9") (fun _ => none)
        "services/media/app/docker-compose.yml" "web"
        (SvcCfg.dictCfg (some (ImgVal.strImg "nginx:latest"))) =
      .ok (none, SvcCfg.dictCfg (some (ImgVal.strImg "nginx:latest"))) ∧
      ∀ u ∈ ([] : List UpdateRec), u.old_version ≠ "latest" :=
  ⟨c8_thm.1 _ _ _ _ _ (by decide),
   c8_thm.2 "services/media/app/docker-compose.yml"
     (.ok (YamlDoc.dictDoc (some
       [("web", SvcCfg.dictCfg (some (ImgVal.strImg "nginx:latest")))])))
     (fun _ => some "99.9.9") (fun _ => none) true [] false (by rfl)⟩

/-! ### Fault isolation -/

/-- A service entry whose shape raises nothing in the loop body: a mapping
whose `image` field is absent or a string. -/
def wfCfg : SvcCfg → Bool
  | SvcCfg.dictCfg none => true
  | SvcCfg.dictCfg (some (ImgVal.strImg _)) => true
  | _ => false

/-- A well-formed service entry never raises, whatever the provider and
changelog responses are. -/
theorem evalService_wf {provider : String → Option String}
    {fetch : String → Option (List RelItem)} {path n : String} {c : SvcCfg}
    (h : wfCfg c = true) :
    ∃ v, evalService provider fetch path n c = .ok v := by
  cases c with
  | nullCfg => simp [wfCfg] at h
  | strCfg s => simp [wfCfg] at h
  | dictCfg oimg =>
    cases oimg with
    | none => exact ⟨_, rfl⟩
    | some iv =>
      cases iv with
      | nullImg => simp [wfCfg] at h
      | intImg k => simp [wfCfg] at h
      | strImg img =>
        by_cases h1 : pyEndsWith ":latest".data img.data = true
        · refine ⟨(none, SvcCfg.dictCfg (some (ImgVal.strImg img))), ?_⟩
          simp only [evalService]
          rw [if_pos h1]
        · simp only [evalService]
          rw [if_neg h1]
          cases hr : rsplitColon img.data with
          | none =>
            simp only [hr]
            exact ⟨_, rfl⟩
          | some pr =>
            obtain ⟨nm, tg⟩ := pr
            simp only [hr]
            cases hp : provider ⟨nm⟩ with
            | none =>
              simp only [hp]
              exact ⟨_, rfl⟩
            | some latest =>
              simp only [hp]
              by_cases hcmp : compare_versions ⟨tg⟩ latest = true
              · exact ⟨_, by rw [if_pos hcmp]⟩
              · exact ⟨_, by rw [if_neg hcmp]⟩

/-- A list of well-formed service entries is evaluated to the end with no
error, whatever any provider or changelog response holds. -/
theorem svcLoop_wf {provider : String → Option String}
    {fetch : String → Option (List RelItem)} {path : String} :
    ∀ svcs : List (String × SvcCfg), (∀ p ∈ svcs, wfCfg p.2 = true) →
      ∃ v, svcLoop provider fetch path svcs = .ok v := by
  intro svcs
  induction svcs with
  | nil => intro _; exact ⟨_, rfl⟩
  | cons p rest ih =>
    intro hwf
    obtain ⟨n, c⟩ := p
    have hwfc : wfCfg c = true := hwf (n, c) (List.mem_cons_self _ _)
    obtain ⟨⟨u, c2⟩, hv1⟩ :=
      @evalService_wf provider fetch path n c hwfc
    obtain ⟨⟨us, rest2⟩, hv2⟩ := ih (fun q hq => hwf q (List.mem_cons_of_mem _ hq))
    cases u with
    | none =>
      refine ⟨(us, (n, c2) :: rest2), ?_⟩
      simp only [svcLoop, hv1, hv2]
    | some rec0 =>
      refine ⟨(rec0 :: us, (n, c2) :: rest2), ?_⟩
      simp only [svcLoop, hv1, hv2]

/-- C2 (amended): exceptions inside the provider call, the version
comparison and the changelog fetch are caught inside those helpers — here
they are total functions, so a failing provider merely yields "unknown" —
and a manifest whose service entries are all well-formed mappings with
string (or absent) image fields is always evaluated to the end without
aborting.  There is, however, no handler at the per-service boundary
itself: an exception raised by the service-level code (a malformed entry,
a non-string image value) propagates and aborts the remaining services,
manifests and the run — see the counterexample. -/
theorem c2_thm (path : String) (provider : String → Option String)
    (fetch : String → Option (List RelItem)) (writeOk : Bool)
    (svcs : List (String × SvcCfg))
    (hwf : ∀ p ∈ svcs, wfCfg p.2 = true) :
    ∃ r, check_service_for_updates path (.ok (YamlDoc.dictDoc (some svcs)))
        provider fetch writeOk = .ok r := by
  unfold check_service_for_updates
  by_cases hgr : (pyIn "github-runner".data path.data ||
      pyIn "automation/github-runner".data path.data) = true
  · rw [if_pos hgr]
    exact ⟨_, rfl⟩
  · rw [if_neg hgr]
    obtain ⟨⟨us, svcs2⟩, hv⟩ :=
      @svcLoop_wf provider fetch path svcs hwf
    show ∃ r, (match svcLoop provider fetch path svcs with
        | .error e => (.error e : Except String (List UpdateRec × Bool))
        | .ok (updates, _svcs2) => .ok (updates, !updates.isEmpty && writeOk)) = .ok r
    rw [hv]
    exact ⟨_, rfl⟩

/-- C2 witness: the no-abort theorem on a manifest holding a service with
no image and a service whose provider lookup fails, both evaluated. -/
theorem c2_wit :
    ∃ r, check_service_for_updates "services/monitoring/grafana/docker-compose.yml"
        (.ok (YamlDoc.dictDoc (some
          [("noimg", SvcCfg.dictCfg none),
           ("grafana", SvcCfg.dictCfg (some (ImgVal.strImg "grafana/grafana:9.5.0")))])))
        (fun _ => none) (fun _ => none) true = .ok r :=
  c2_thm _ _ _ _ _ (by decide)

/-- C2 counterexample: a manifest whose first service carries a non-string
image value makes the whole run abort with the uncaught error — the sibling
service of the same manifest and the second manifest (which, evaluated on
its own, yields an update record) are never processed, refuting the claimed
per-service catch. -/
theorem c2_cex :
    runAll (fun nm => if nm == "grafana/grafana" then some "9.5.1" else none)
        (fun _ => none)
        [("services/media/immich/docker-compose.yml",
          .ok (YamlDoc.dictDoc (some
            [("bad", SvcCfg.dictCfg (some (ImgVal.intImg 5))),
             ("sibling", SvcCfg.dictCfg (some (ImgVal.strImg "grafana/grafana:9.5.0")))])),
          true),
         ("services/monitoring/grafana/docker-compose.yml",
          .ok (YamlDoc.dictDoc (some
            [("grafana", SvcCfg.dictCfg (some (ImgVal.strImg "grafana/grafana:9.5.0")))])),
          true)] =
      .error "AttributeError: int object has no attribute endswith" ∧
    check_service_for_updates "services/monitoring/grafana/docker-compose.yml"
        (.ok (YamlDoc.dictDoc (some
          [("grafana", SvcCfg.dictCfg (some (ImgVal.strImg "grafana/grafana:9.5.0")))])))
        (fun nm => if nm == "grafana/grafana" then some "9.5.1" else none)
        (fun _ => none) true =
      .ok ([⟨"grafana", "services/monitoring/grafana/docker-compose.yml", "9.5.0", "9.5.1",
        "grafana/grafana", none, some "grafana/grafana"⟩], true) := by
  refine ⟨by rfl, by rfl⟩
